import Mathlib

/-!
Shallow embedding of the note-transcription core of `worker/process.py`
(pitch smoothing, voicing classification, note segmentation, velocity
estimation, rhythmic quantization, instrument classification and
transposition).  Times, frequencies and energies are modelled as exact
rationals; Python `round` is embedded as round-half-to-even; the
fallible transpose-only entry point returns `Except`.
-/

namespace TranscriptionTool

/-- Python builtin `round` on a rational: round half to even
(banker's rounding), returning an integer.  Used by `quantize_notes`
(`round(n["start"] / grid)`), by the segmenter (`int(round(midi_smooth[i]))`)
and for velocities (`int(round(vel))`). -/
def pyRound (x : ℚ) : ℤ :=
  if x - ⌊x⌋ < 1/2 then ⌊x⌋
  else if 1/2 < x - ⌊x⌋ then ⌊x⌋ + 1
  else if Even ⌊x⌋ then ⌊x⌋ else ⌊x⌋ + 1

/-- Insertion of an element into an ascending list, helper for `sortQ`. -/
def insertSorted (x : ℚ) : List ℚ → List ℚ
  | [] => [x]
  | y :: ys => if x ≤ y then x :: y :: ys else y :: insertSorted x ys

/-- Ascending insertion sort of a rational list. -/
def sortQ (l : List ℚ) : List ℚ := l.foldr insertSorted []

/-- The statistical median as `np.median` computes it: middle element of
the sorted data for odd length, mean of the two middle elements for even
length.  (The code never takes the median of an empty array; 0 is a dummy
value for that case.) -/
def npMedian (l : List ℚ) : ℚ :=
  let s := sortQ l
  let n := l.length
  if n % 2 = 1 then s.getD (n / 2) 0
  else if n = 0 then 0
  else (s.getD (n / 2 - 1) 0 + s.getD (n / 2) 0) / 2

/-- Minimum of a rational list, as `rmse.min()` (never queried empty). -/
def listMin : List ℚ → ℚ
  | [] => 0
  | x :: xs => xs.foldl min x

/-- Maximum of a rational list, as `rmse.max()`. -/
def listMax : List ℚ → ℚ
  | [] => 0
  | x :: xs => xs.foldl max x

/-- Pitch-class spellings that music21 uses when converting a MIDI number
to a pitch name (sharps for C♯/F♯/G♯, flats for E♭/B♭). -/
def noteNames : List String :=
  ["C", "C#", "D", "E-", "E", "F", "F#", "G", "G#", "A", "B-", "B"]

/-- The function `midi_to_name` of `process.py`.  It delegates to music21
(`m21note.Note(midi).nameWithOctave`), whose deterministic result is the
pitch-class spelling of `midi % 12` followed by octave `midi // 12 - 1`
(so 60 ↦ "C4", 69 ↦ "A4", 74 ↦ "D5"). -/
def midi_to_name (m : ℤ) : String :=
  noteNames.getD ((m % 12).toNat) "C" ++ toString (m / 12 - 1)

/-- A note event as produced by `transcribe`: the Python dict
`{"start": s, "end": e, "midi": m, "name": name, "velocity": v}`.
(`end` is written `«end»` because it is a Lean keyword.) -/
structure Note where
  start : ℚ
  «end» : ℚ
  midi : ℤ
  name : String
  velocity : ℤ
  deriving DecidableEq

instance : Inhabited Note := ⟨⟨0, 0, 0, "", 0⟩⟩

/-- The grid unit of `quantize_notes`:
`grid = 60.0 / tempo / (divisions / 4.0)` seconds. -/
def gridOf (tempo : ℚ) (divisions : ℤ) : ℚ := 60 / tempo / ((divisions : ℚ) / 4)

/-- The body of the `for n in notes` loop of `quantize_notes`: round the
start and the end independently to the nearest grid multiple
(`round(n["start"] / grid) * grid`), then extend a collapsed note
(`if e <= s: e = s + grid`). -/
def quantizeNote (g : ℚ) (n : Note) : Note :=
  let s := (pyRound (n.start / g) : ℚ) * g
  let e := (pyRound (n.«end» / g) : ℚ) * g
  { n with start := s, «end» := if e ≤ s then s + g else e }

/-- The function `quantize_notes` of `process.py`: snap each note's start
and end independently to the grid `60 / tempo / (divisions / 4)` seconds,
and extend a collapsed note (`end <= start`) by one grid unit.
Non-positive `divisions` returns the notes unchanged. -/
def quantize_notes (notes : List Note) (tempo : ℚ) (divisions : ℤ) : List Note :=
  if divisions ≤ 0 then notes
  else notes.map (quantizeNote (gridOf tempo divisions))

/-- Line 112 of `process.py`:
`rmse = (rmse - rmse.min()) / (rmse.ptp() + 1e-9)` —
min-max normalization of the per-frame energies with a `1e-9` guard in the
denominator (`ptp` is max minus min). -/
def rmseNorm (rmse : List ℚ) : List ℚ :=
  rmse.map (fun x => (x - listMin rmse) / ((listMax rmse - listMin rmse) + 1/1000000000))

/-- Line 113 of `process.py`:
`midi_cont = [hz_to_midi(v) if v > 0 else nan for v in f0]`.
The conversion `hz_to_midi hz = 69 + 12 * log2 (hz / 440)` is
transcendental, so the embedding abstracts it as the parameter `hz2midi`;
`none` models `nan`. -/
def midiCont (hz2midi : ℚ → ℚ) (f0 : List ℚ) : List (Option ℚ) :=
  f0.map (fun v => if v > 0 then some (hz2midi v) else none)

/-- Lines 115-123 of `process.py`: the centered width-5 sliding median
filter over `midi_cont`, ignoring `nan` entries; a window with no valid
value yields `nan`. -/
def midiSmoothAt (mc : List (Option ℚ)) (i : ℕ) : Option ℚ :=
  let s := i - 2
  let e := min mc.length (i + 3)
  let w := ((mc.drop s).take (e - s)).filterMap id
  if w.isEmpty then none else some (npMedian w)

/-- Line 125 of `process.py`:
`voiced = (rmse > 0.08) & (~np.isnan(midi_smooth))`, at frame `i`. -/
def voiced (hz2midi : ℚ → ℚ) (f0 rmse : List ℚ) (i : ℕ) : Bool :=
  decide ((rmseNorm rmse).getD i 0 > 8/100) && ((midiSmoothAt (midiCont hz2midi f0) i).isSome)

/-- The pitch the segmenter opens a note with at frame `i`:
`p = int(round(midi_smooth[i]))` (only read at voiced frames, where the
smoothed pitch exists; 0 is the dummy for the impossible `nan` case). -/
def pitchAt (hz2midi : ℚ → ℚ) (f0 : List ℚ) (i : ℕ) : ℤ :=
  pyRound ((midiSmoothAt (midiCont hz2midi f0) i).getD 0)

/-- A note closed by the segmenter over frames `[cs, i)`: lines 138-142
(and 147-151) of `process.py`.  Velocity is
`int(round(np.clip(np.median(rmse[cs:i]) * 127.0, 1, 127)))`. -/
def noteAt (hop sr : ℚ) (rmseN : List ℚ) (cs i : ℕ) (cp : ℤ) : Note :=
  { start := (cs : ℚ) * hop / sr
    «end» := (i : ℚ) * hop / sr
    midi := cp
    name := midi_to_name cp
    velocity := pyRound (max 1 (min (npMedian ((rmseN.drop cs).take (i - cs)) * 127) 127)) }

/-- A mid-track close of the segmenter: the note over frames `[cs, i)` is
emitted only when its duration exceeds 0.04 s (`if e - s > 0.04`). -/
def closeNote (hop sr : ℚ) (rmseN : List ℚ) (cs i : ℕ) (cp : ℤ) : Option Note :=
  if (i : ℚ) * hop / sr - (cs : ℚ) * hop / sr > 4/100 then some (noteAt hop sr rmseN cs i cp)
  else none

/-- Lines 155-159 of `process.py`: a note still open at the end of the
track is closed at index `len(f0)` and appended with no duration check;
its velocity slice is `rmse[cs:]`. -/
def tailNote (hop sr : ℚ) (rmseN : List ℚ) (n cs : ℕ) (cp : ℤ) : Note :=
  { start := (cs : ℚ) * hop / sr
    «end» := (n : ℚ) * hop / sr
    midi := cp
    name := midi_to_name cp
    velocity := pyRound (max 1 (min (npMedian (rmseN.drop cs) * 127) 127)) }

/-- One step of the segmenter state machine (the body of the
`for i, v in enumerate(voiced)` loop, lines 130-153).  The state is the
emitted notes so far together with the open note `(current_start,
current_pitch)`, `none` when no note is open. -/
def segStep (hop sr : ℚ) (rmseN : List ℚ) (voicedB : ℕ → Bool) (pA : ℕ → ℤ)
    (st : List Note × Option (ℕ × ℤ)) (i : ℕ) : List Note × Option (ℕ × ℤ) :=
  if voicedB i then
    let p := pA i
    match st.2 with
    | none => (st.1, some (i, p))
    | some (cs, cp) =>
      if |(p : ℚ) - (cp : ℚ)| > 1/2 then
        (st.1 ++ (closeNote hop sr rmseN cs i cp).toList, some (i, p))
      else (st.1, some (cs, cp))
  else
    match st.2 with
    | none => (st.1, none)
    | some (cs, cp) => (st.1 ++ (closeNote hop sr rmseN cs i cp).toList, none)

/-- The segmenter loop folded over all frame indices. -/
def segLoop (hz2midi : ℚ → ℚ) (f0 rmse : List ℚ) (hop sr : ℚ) :
    List Note × Option (ℕ × ℤ) :=
  (List.range f0.length).foldl
    (segStep hop sr (rmseNorm rmse) (voiced hz2midi f0 rmse) (pitchAt hz2midi f0)) ([], none)

/-- The pre-quantization note list of `transcribe`: the loop result plus
the end-of-track close of lines 155-159. -/
def segmentNotes (hz2midi : ℚ → ℚ) (f0 rmse : List ℚ) (hop sr : ℚ) : List Note :=
  match segLoop hz2midi f0 rmse hop sr with
  | (notes, none) => notes
  | (notes, some (cs, cp)) => notes ++ [tailNote hop sr (rmseNorm rmse) f0.length cs cp]

/-- The function `transcribe` of `process.py`, from the per-frame pitch
estimates (`f0`, Hz, 0 meaning unvoiced) and per-frame energies (`rmse`,
the raw `librosa.feature.rms` values) to the quantized note list.  The
hop size is the constant 256 of the source; pitch/energy extraction
(librosa) are the external collaborators feeding `f0` and `rmse`. -/
def transcribe (hz2midi : ℚ → ℚ) (f0 rmse : List ℚ) (sr : ℚ) (tempo : ℚ) : List Note :=
  quantize_notes (segmentNotes hz2midi f0 rmse 256 sr) tempo 16

/-- The dict `semitone_map = {"soprano": 2, "alto": 9, "tenor": 14,
"baritone": 21}` with the `.get(target, 2)` fallback of line 203. -/
def semitone_map (target : String) : ℤ :=
  if target = "soprano" then 2
  else if target = "alto" then 9
  else if target = "tenor" then 14
  else if target = "baritone" then 21
  else 2

/-- A note record of a transpose-only input JSON.  `midi = none` models a
note object without a `"midi"` key (reading it raises `KeyError`). -/
structure RawNote where
  start : ℚ
  «end» : ℚ
  midi : Option ℤ
  name : String
  velocity : ℤ
  deriving DecidableEq

instance : Inhabited RawNote := ⟨⟨0, 0, none, "", 0⟩⟩

/-- The `"meta"` object of a Transcript; each field is optional because
the Python code reads it with `meta.get(...)`. -/
structure Meta where
  tempo : Option ℤ
  key : Option String
  meter : Option String
  instrument : Option String
  deriving DecidableEq

/-- A transpose-only input: the parsed JSON `{"meta": ..., "notes": ...}`.
`notes = none` models an input object without a `"notes"` key, which
`data.get("notes", [])` replaces by the empty list. -/
structure TransposeInput where
  notes : Option (List RawNote)
  meta : Meta
  deriving DecidableEq

/-- The output Transcript of the transpose-only path:
`{"meta": meta, "notes": tnotes}`. -/
structure Transcript where
  meta : Meta
  notes : List Note
  deriving DecidableEq

/-- Line 206-207 of `process.py` for one note:
`m = int(n["midi"]) + shift; {**n, "midi": m, "name": midi_to_name(m)}`.
A note without a `"midi"` key raises `KeyError`, modelled as `Except.error`. -/
def transposeNote (shift : ℤ) (n : RawNote) : Except String Note :=
  match n.midi with
  | none => .error "KeyError: midi"
  | some m => .ok ⟨n.start, n.«end», m + shift, midi_to_name (m + shift), n.velocity⟩

/-- The `for n in notes` loop of lines 205-207: transpose each note in
order, aborting at the first note whose `"midi"` key is missing. -/
def transposeLoop (shift : ℤ) : List RawNote → Except String (List Note)
  | [] => .ok []
  | n :: rest =>
    match transposeNote shift n with
    | .error e => .error e
    | .ok t =>
      match transposeLoop shift rest with
      | .error e => .error e
      | .ok ts => .ok (t :: ts)

/-- The transpose-only branch of `main` (lines 196-210): pick the target
instrument (the CLI argument, or the transcript's recorded instrument
with fallback "soprano" when the argument is "auto"), shift every note by
the instrument's semitone offset, and update `meta["instrument"]`. -/
def transposeMain (inp : TransposeInput) (instrumentArg : String) : Except String Transcript :=
  let notes := inp.notes.getD []
  let target := if instrumentArg ≠ "auto" then instrumentArg else inp.meta.instrument.getD "soprano"
  let shift := semitone_map target
  match transposeLoop shift notes with
  | .error e => .error e
  | .ok tnotes => .ok ⟨{ inp.meta with instrument := some target }, tnotes⟩

/-- The transposed form of a raw note whose `midi` key is present. -/
def transposedNote (shift : ℤ) (n : RawNote) : Note :=
  ⟨n.start, n.«end», n.midi.getD 0 + shift, midi_to_name (n.midi.getD 0 + shift), n.velocity⟩

/-- The dict `centers = {"soprano": 76, "alto": 69, "tenor": 62,
"baritone": 55}` of line 235. -/
def centers (k : String) : ℤ :=
  if k = "soprano" then 76
  else if k = "alto" then 69
  else if k = "tenor" then 62
  else if k = "baritone" then 55
  else 0

/-- The iteration order of `centers.keys()` (dict insertion order). -/
def instrumentOrder : List String := ["soprano", "alto", "tenor", "baritone"]

/-- Priority of an instrument in `instrumentOrder` (its index). -/
def prio (s : String) : ℕ := instrumentOrder.indexOf s

/-- Python `min(keys, key=f)`: the first element of the list attaining the
minimal key (CPython replaces the running best only on a strict
decrease). -/
def pyMin (key : String → ℚ) : List String → String
  | [] => "soprano"
  | x :: xs => xs.foldl (fun b a => if key a < key b then a else b) x

/-- Lines 233-236 of `process.py`: the auto-classifier.  The median MIDI
pitch of the notes (default 69.0 for an empty list) is compared with the
per-instrument centers, and the closest instrument wins. -/
def classifyInstrument (notes : List Note) : String :=
  let med : ℚ := if notes.length ≠ 0 then npMedian (notes.map fun n => (n.midi : ℚ)) else 69
  pyMin (fun k => |((centers k : ℚ)) - med|) instrumentOrder

/-- Lines 232-238 of `process.py`: the instrument written to the output is
the classifier's choice for `--instrument auto` and the argument itself
otherwise. -/
def chooseInstrument (arg : String) (notes : List Note) : String :=
  if arg = "auto" then classifyInstrument notes else arg

/-! ### Helper lemmas -/

theorem abs_pyRound_sub_le (x : ℚ) : |(pyRound x : ℚ) - x| ≤ 1/2 := by
  have h0 : ((⌊x⌋ : ℤ) : ℚ) ≤ x := Int.floor_le x
  have h1 : x < ⌊x⌋ + 1 := Int.lt_floor_add_one x
  rw [abs_le]
  unfold pyRound
  split_ifs with ha hb hc <;> constructor <;> push_cast <;> linarith

theorem le_pyRound_of_le (lo : ℤ) (y : ℚ) (h : (lo : ℚ) ≤ y) : lo ≤ pyRound y := by
  have hb := (abs_le.mp (abs_pyRound_sub_le y)).1
  have : ((lo : ℤ) : ℚ) - 1 < (pyRound y : ℚ) := by linarith
  have : lo - 1 < pyRound y := by exact_mod_cast this
  omega

theorem pyRound_le_of_le (hi : ℤ) (y : ℚ) (h : y ≤ (hi : ℚ)) : pyRound y ≤ hi := by
  have hb := (abs_le.mp (abs_pyRound_sub_le y)).2
  have : (pyRound y : ℚ) < ((hi : ℤ) : ℚ) + 1 := by linarith
  have : pyRound y < hi + 1 := by exact_mod_cast this
  omega

theorem abs_pyRound_mul_sub_le (t g : ℚ) (hg : 0 < g) :
    |(pyRound (t / g) : ℚ) * g - t| ≤ g / 2 := by
  have h := abs_pyRound_sub_le (t / g)
  have hgne : g ≠ 0 := ne_of_gt hg
  have heq : (pyRound (t / g) : ℚ) * g - t = ((pyRound (t / g) : ℚ) - t / g) * g := by
    rw [sub_mul, div_mul_cancel₀ t hgne]
  rw [heq, abs_mul, abs_of_pos hg]
  calc |(pyRound (t / g) : ℚ) - t / g| * g ≤ (1/2) * g :=
        mul_le_mul_of_nonneg_right h hg.le
    _ = g / 2 := by ring

theorem getD_map_lt {α β : Type} (f : α → β) :
    ∀ (l : List α) (i : ℕ) (d₁ : α) (d₂ : β), i < l.length →
      (l.map f).getD i d₂ = f (l.getD i d₁) := by
  intro l
  induction l with
  | nil => intro i d₁ d₂ h; cases h
  | cons x t ih =>
    intro i d₁ d₂ h
    cases i with
    | zero => rfl
    | succ j =>
      simp only [List.map_cons, List.getD_cons_succ]
      exact ih j d₁ d₂ (by simpa using h)

theorem getD_replicate_self {α : Type} (a : α) :
    ∀ (n i : ℕ), (List.replicate n a).getD i a = a := by
  intro n
  induction n with
  | zero => intro i; rfl
  | succ m ih =>
    intro i
    cases i with
    | zero => rfl
    | succ j => exact ih j

theorem take_all_of_length_le {α : Type} :
    ∀ (l : List α) (n : ℕ), l.length ≤ n → l.take n = l := by
  intro l
  induction l with
  | nil => intro n _; simp
  | cons x t ih =>
    intro n h
    cases n with
    | zero => cases h
    | succ m =>
      simp only [List.take_succ_cons]
      rw [ih m (by simpa using h)]

theorem voiced_eq_false_of_energy_le (hz2midi : ℚ → ℚ) (f0 rmse : List ℚ) (i : ℕ)
    (h : (rmseNorm rmse).getD i 0 ≤ 8/100) : voiced hz2midi f0 rmse i = false := by
  unfold voiced
  rw [decide_eq_false (not_lt.mpr h), Bool.false_and]

theorem segLoop_all_unvoiced (hop sr : ℚ) (rmseN : List ℚ) (vB : ℕ → Bool) (pA : ℕ → ℤ) :
    ∀ (l : List ℕ), (∀ i ∈ l, vB i = false) → ∀ (notes : List Note),
      l.foldl (segStep hop sr rmseN vB pA) (notes, none) = (notes, none) := by
  intro l
  induction l with
  | nil => intro _ notes; rfl
  | cons i t ih =>
    intro hl notes
    have hi : vB i = false := hl i (by simp)
    rw [List.foldl_cons]
    have hstep : segStep hop sr rmseN vB pA (notes, none) i = (notes, none) := by
      unfold segStep
      rw [hi]
      rfl
    rw [hstep]
    exact ih (fun j hj => hl j (by simp [hj])) notes

theorem closeNote_eq_some {hop sr : ℚ} {rmseN : List ℚ} {cs i : ℕ} {cp : ℤ} {nt : Note}
    (h : closeNote hop sr rmseN cs i cp = some nt) :
    (i : ℚ) * hop / sr - (cs : ℚ) * hop / sr > 4/100 ∧ nt = noteAt hop sr rmseN cs i cp := by
  unfold closeNote at h
  by_cases hd : (i : ℚ) * hop / sr - (cs : ℚ) * hop / sr > 4/100
  · rw [if_pos hd] at h
    exact ⟨hd, (Option.some_inj.mp h).symm⟩
  · rw [if_neg hd] at h
    cases h

/-- The notes accumulated by one segmenter step: unchanged, or extended by
a (possibly discarded) closed note. -/
theorem segStep_fst (hop sr : ℚ) (rmseN : List ℚ) (vB : ℕ → Bool) (pA : ℕ → ℤ)
    (st : List Note × Option (ℕ × ℤ)) (i : ℕ) :
    (segStep hop sr rmseN vB pA st i).1 = st.1 ∨
      ∃ cs cp, (segStep hop sr rmseN vB pA st i).1
        = st.1 ++ (closeNote hop sr rmseN cs i cp).toList := by
  rcases st with ⟨ns, cur⟩
  unfold segStep
  split
  · split
    · exact Or.inl rfl
    · dsimp only
      split
      · exact Or.inr ⟨_, _, rfl⟩
      · exact Or.inl rfl
  · split
    · exact Or.inl rfl
    · exact Or.inr ⟨_, _, rfl⟩

theorem segLoop_inv (P : Note → Prop) (hop sr : ℚ) (rmseN : List ℚ) (vB : ℕ → Bool) (pA : ℕ → ℤ)
    (hP : ∀ cs i cp nt, closeNote hop sr rmseN cs i cp = some nt → P nt) :
    ∀ (l : List ℕ) (st : List Note × Option (ℕ × ℤ)),
      (∀ x ∈ st.1, P x) → ∀ x ∈ (l.foldl (segStep hop sr rmseN vB pA) st).1, P x := by
  intro l
  induction l with
  | nil => intro st h x hx; exact h x hx
  | cons i t ih =>
    intro st h
    rw [List.foldl_cons]
    apply ih
    intro x hx
    rcases segStep_fst hop sr rmseN vB pA st i with heq | ⟨cs, cp, heq⟩
    · rw [heq] at hx
      exact h x hx
    · rw [heq] at hx
      rcases List.mem_append.mp hx with h1 | h2
      · exact h x h1
      · cases hcn : closeNote hop sr rmseN cs i cp with
        | none => rw [hcn] at h2; cases h2
        | some nt =>
          rw [hcn] at h2
          have hx2 : x = nt := List.mem_singleton.mp h2
          exact hx2 ▸ hP cs i cp nt hcn

/-- Invariant transfer to the loop part of the segmenter. -/
theorem segLoop_inv' (P : Note → Prop) (hz2midi : ℚ → ℚ) (f0 rmse : List ℚ) (hop sr : ℚ)
    (hP : ∀ cs i cp nt, closeNote hop sr (rmseNorm rmse) cs i cp = some nt → P nt) :
    ∀ x ∈ (segLoop hz2midi f0 rmse hop sr).1, P x := by
  unfold segLoop
  exact segLoop_inv P hop sr (rmseNorm rmse) (voiced hz2midi f0 rmse) (pitchAt hz2midi f0) hP
    (List.range f0.length) ([], none) (by simp)

/-- Every note of `segmentNotes` is either a note of the loop part or the
end-of-track note (whose end is the final frame index in seconds). -/
theorem segmentNotes_cases (hz2midi : ℚ → ℚ) (f0 rmse : List ℚ) (hop sr : ℚ) :
    ∀ nt ∈ segmentNotes hz2midi f0 rmse hop sr,
      nt ∈ (segLoop hz2midi f0 rmse hop sr).1 ∨
        ∃ cs cp, nt = tailNote hop sr (rmseNorm rmse) f0.length cs cp := by
  intro nt hnt
  unfold segmentNotes at hnt
  rcases hseg : segLoop hz2midi f0 rmse hop sr with ⟨ns, cur⟩
  rw [hseg] at hnt
  cases cur with
  | none =>
    left
    exact hnt
  | some p =>
    rcases p with ⟨cs, cp⟩
    rcases List.mem_append.mp hnt with h1 | h2
    · left
      exact h1
    · right
      exact ⟨cs, cp, List.mem_singleton.mp h2⟩

theorem transposeLoop_ok_of_all_some (shift : ℤ) :
    ∀ (ns : List RawNote), (∀ n ∈ ns, n.midi.isSome) →
      transposeLoop shift ns = .ok (ns.map (transposedNote shift)) := by
  intro ns
  induction ns with
  | nil => intro _; rfl
  | cons n t ih =>
    intro h
    obtain ⟨m, hm⟩ := Option.isSome_iff_exists.mp (h n (by simp))
    have ht := ih (fun x hx => h x (by simp [hx]))
    unfold transposeLoop
    rw [ht]
    unfold transposeNote
    rw [hm]
    simp only [List.map_cons]
    unfold transposedNote
    rw [hm]
    rfl

theorem transposeLoop_ok_eq (shift : ℤ) :
    ∀ (ns : List RawNote) (ts : List Note), transposeLoop shift ns = .ok ts →
      ts = ns.map (transposedNote shift) := by
  intro ns
  induction ns with
  | nil =>
    intro ts h
    unfold transposeLoop at h
    cases h
    rfl
  | cons n t ih =>
    intro ts h
    unfold transposeLoop at h
    cases hm : n.midi with
    | none =>
      unfold transposeNote at h
      rw [hm] at h
      cases h
    | some m =>
      unfold transposeNote at h
      rw [hm] at h
      cases htl : transposeLoop shift t with
      | error e => rw [htl] at h; cases h
      | ok ts2 =>
        rw [htl] at h
        cases h
        rw [ih ts2 htl]
        simp only [List.map_cons]
        unfold transposedNote
        rw [hm]
        rfl

theorem transposeLoop_error_of_missing (shift : ℤ) :
    ∀ (ns : List RawNote), (∃ n ∈ ns, n.midi = none) →
      ∃ e, transposeLoop shift ns = .error e := by
  intro ns
  induction ns with
  | nil =>
    rintro ⟨n, hmem, _⟩
    cases hmem
  | cons x t ih =>
    rintro ⟨n, hmem, hmidi⟩
    rcases List.mem_cons.mp hmem with rfl | hmem2
    · refine ⟨"KeyError: midi", ?_⟩
      unfold transposeLoop transposeNote
      rw [hmidi]
    · cases hx : x.midi with
      | none =>
        refine ⟨"KeyError: midi", ?_⟩
        unfold transposeLoop transposeNote
        rw [hx]
      | some m =>
        obtain ⟨e, he⟩ := ih ⟨n, hmem2, hmidi⟩
        refine ⟨e, ?_⟩
        unfold transposeLoop transposeNote
        rw [hx, he]

theorem centers_soprano : centers "soprano" = 76 := rfl

theorem centers_alto : centers "alto" = 69 := rfl

theorem centers_tenor : centers "tenor" = 62 := rfl

theorem centers_baritone : centers "baritone" = 55 := rfl

theorem le_pyRound_clip (x : ℚ) :
    1 ≤ pyRound (max 1 (min x 127)) ∧ pyRound (max 1 (min x 127)) ≤ 127 := by
  have h1 : (1 : ℚ) ≤ max 1 (min x 127) := le_max_left _ _
  have h2 : max 1 (min x 127) ≤ 127 := max_le (by norm_num) (min_le_right _ _)
  constructor
  · exact le_pyRound_of_le 1 _ (by exact_mod_cast h1)
  · exact pyRound_le_of_le 127 _ (by exact_mod_cast h2)

theorem pyRound_eq_low (q : ℚ) (z : ℤ) (h1 : (z : ℚ) ≤ q) (h2 : q < (z : ℚ) + 1/2) :
    pyRound q = z := by
  have hf : ⌊q⌋ = z := Int.floor_eq_iff.mpr ⟨h1, by linarith⟩
  unfold pyRound
  rw [hf, if_pos (by linarith)]

theorem pyRound_eq_high (q : ℚ) (z : ℤ) (h1 : (z : ℚ) + 1/2 < q) (h2 : q < (z : ℚ) + 1) :
    pyRound q = z + 1 := by
  have hf : ⌊q⌋ = z := Int.floor_eq_iff.mpr ⟨by linarith, by linarith⟩
  unfold pyRound
  rw [hf, if_neg (by linarith), if_pos (by linarith)]

theorem foldl_min_const (x : ℚ) : ∀ n, List.foldl min x (List.replicate n x) = x := by
  intro n
  induction n with
  | zero => rfl
  | succ m ih =>
    rw [List.replicate_succ, List.foldl_cons, min_self]
    exact ih

theorem foldl_max_const (x : ℚ) : ∀ n, List.foldl max x (List.replicate n x) = x := by
  intro n
  induction n with
  | zero => rfl
  | succ m ih =>
    rw [List.replicate_succ, List.foldl_cons, max_self]
    exact ih

theorem listMin_replicate (n : ℕ) (x : ℚ) : listMin (List.replicate (n + 1) x) = x := by
  rw [List.replicate_succ]
  unfold listMin
  exact foldl_min_const x n

theorem listMax_replicate (n : ℕ) (x : ℚ) : listMax (List.replicate (n + 1) x) = x := by
  rw [List.replicate_succ]
  unfold listMax
  exact foldl_max_const x n

theorem rmseNorm_const : ∀ (n : ℕ) (x : ℚ), rmseNorm (List.replicate n x) = List.replicate n 0 := by
  intro n x
  cases n with
  | zero => rfl
  | succ m =>
    unfold rmseNorm
    rw [List.map_replicate, listMin_replicate m x, listMax_replicate m x]
    simp

/-- Shared helper: a constant-energy track yields no notes at all, for any
pitch content, because min-max normalization maps every frame's energy to
0, below the voicing threshold. -/
theorem transcribe_const_energy_empty (hz2midi : ℚ → ℚ) (f0 : List ℚ) (n : ℕ) (x : ℚ)
    (hn : f0.length = n) (sr tempo : ℚ) :
    transcribe hz2midi f0 (List.replicate n x) sr tempo = [] := by
  have hv : ∀ i, voiced hz2midi f0 (List.replicate n x) i = false := by
    intro i
    apply voiced_eq_false_of_energy_le
    rw [rmseNorm_const n x, getD_replicate_self (0 : ℚ) n i]
    norm_num
  unfold transcribe segmentNotes segLoop
  rw [hn, segLoop_all_unvoiced 256 sr (rmseNorm (List.replicate n x))
    (voiced hz2midi f0 (List.replicate n x)) (pitchAt hz2midi f0)
    (List.range n) (fun i _ => hv i) []]
  rfl

/-! ### Claims -/

/-- C1 (amended): every note emitted by a mid-track close of the
segmenter has pre-quantization duration strictly greater than 0.04 s
(hence at least 0.04 s); every other emitted note is the single note
still open at the end of the track, which is closed at the final frame
index (`len(f0) * hop / sr` seconds) and emitted without the
minimum-duration check. -/
theorem C1_min_duration (hz2midi : ℚ → ℚ) (f0 rmse : List ℚ) (hop sr : ℚ) :
    (∀ nt ∈ (segLoop hz2midi f0 rmse hop sr).1, 4/100 < nt.«end» - nt.start) ∧
    (∀ nt ∈ segmentNotes hz2midi f0 rmse hop sr,
      nt ∈ (segLoop hz2midi f0 rmse hop sr).1 ∨
        nt.«end» = (f0.length : ℚ) * hop / sr) := by
  constructor
  · exact segLoop_inv' (fun x => 4/100 < x.«end» - x.start) hz2midi f0 rmse hop sr
      (fun cs i cp nt h => by
        obtain ⟨hd, hnt⟩ := closeNote_eq_some h
        rw [hnt]
        exact hd)
  · intro nt hnt
    rcases segmentNotes_cases hz2midi f0 rmse hop sr nt hnt with h | ⟨cs, cp, h⟩
    · exact Or.inl h
    · right
      rw [h]
      rfl

/-- C1 (counterexample to the claim as stated): on the two-frame track
with `f0 = [0 Hz, 440 Hz]` and energies `[0, 1]` the only voiced frame is
the last one, so the note opened there is still open at the end of the
track; it is emitted with pre-quantization duration
`512/44100 - 256/44100 = 256/44100 < 0.04` seconds instead of being
discarded. -/
theorem C1_counterexample :
    segmentNotes (fun _ => 69) [0, 440] [0, 1] 256 44100 =
      [{ start := 64/11025, «end» := 128/11025, midi := 69, name := "A4", velocity := 127 }] ∧
    (128 : ℚ)/11025 - 64/11025 < 4/100 := by
  have hnorm : rmseNorm [0, 1] = [0, 1000000000/1000000001] := by
    norm_num [rmseNorm, listMin, listMax]
  have hmc : midiCont (fun _ => (69 : ℚ)) [0, 440] = [none, some 69] := by
    norm_num [midiCont]
  have hms1 : midiSmoothAt [none, some (69 : ℚ)] 1 = some 69 := by
    norm_num [midiSmoothAt, npMedian, sortQ, insertSorted, List.filterMap]
  have hv0 : voiced (fun _ => 69) [0, 440] [0, 1] 0 = false := by
    apply voiced_eq_false_of_energy_le
    rw [hnorm]
    show (0 : ℚ) ≤ 8/100
    norm_num
  have hv1 : voiced (fun _ => 69) [0, 440] [0, 1] 1 = true := by
    unfold voiced
    rw [Bool.and_eq_true]
    constructor
    · rw [decide_eq_true_eq, hnorm]
      show (8 : ℚ)/100 < 1000000000/1000000001
      norm_num
    · rw [hmc, hms1]
      rfl
  have hp1 : pitchAt (fun _ => 69) [0, 440] 1 = 69 := by
    unfold pitchAt
    rw [hmc, hms1, Option.getD_some]
    exact pyRound_eq_low 69 69 (by norm_num) (by norm_num)
  have hstep0 : segStep 256 44100 (rmseNorm [0, 1]) (voiced (fun _ => 69) [0, 440] [0, 1])
      (pitchAt (fun _ => 69) [0, 440]) ([], none) 0 = ([], none) := by
    unfold segStep
    rw [hv0]
    rfl
  have hstep1 : segStep 256 44100 (rmseNorm [0, 1]) (voiced (fun _ => 69) [0, 440] [0, 1])
      (pitchAt (fun _ => 69) [0, 440]) ([], none) 1 = ([], some (1, 69)) := by
    unfold segStep
    rw [hv1, hp1]
    rfl
  have hseg : segLoop (fun _ => 69) [0, 440] [0, 1] 256 44100 = ([], some (1, 69)) := by
    unfold segLoop
    rw [show List.length [(0 : ℚ), 440] = 2 from rfl,
      show List.range 2 = [0, 1] from by decide,
      List.foldl_cons, hstep0, List.foldl_cons, hstep1, List.foldl_nil]
  have hmed : npMedian (List.drop 1 (rmseNorm [0, 1])) = 1000000000/1000000001 := by
    rw [hnorm]
    norm_num [npMedian, sortQ, insertSorted]
  have hvel : pyRound (max 1 (min (npMedian (List.drop 1 (rmseNorm [0, 1])) * 127) 127))
      = 127 := by
    rw [hmed,
      show (min ((1000000000 : ℚ)/1000000001 * 127) 127) = 127000000000/1000000001 from by
        norm_num,
      show (max (1 : ℚ) (127000000000/1000000001)) = 127000000000/1000000001 from by norm_num,
      pyRound_eq_high (127000000000/1000000001 : ℚ) 126 (by norm_num) (by norm_num)]
    norm_num
  have htail : tailNote 256 44100 (rmseNorm [0, 1]) 2 1 69 =
      ({ start := 64/11025, «end» := 128/11025, midi := 69, name := "A4", velocity := 127 }
        : Note) := by
    unfold tailNote
    simp only [Note.mk.injEq]
    refine ⟨by norm_num, by norm_num, trivial, by decide, hvel⟩
  constructor
  · unfold segmentNotes
    rw [hseg]
    show [] ++ [tailNote 256 44100 (rmseNorm [0, 1]) (List.length [(0 : ℚ), 440]) 1 69] = _
    rw [List.nil_append, show List.length [(0 : ℚ), 440] = 2 from rfl, htail]
  · norm_num

/-- Evaluation helper: the segmenter on the two-frame track
`f0 = [440, 0]`, `rmse = [1, 0]` closes one note spanning the first
frame, provided its duration `hop/sr` passes the 0.04 s threshold. -/
theorem segLoop_two_frame_eval (hop sr : ℚ) (hg : hop/sr > 4/100) :
    segLoop (fun _ => 69) [440, 0] [1, 0] hop sr = ([⟨0, hop/sr, 69, "A4", 127⟩], none) := by
  have hnorm : rmseNorm [1, 0] = [1000000000/1000000001, 0] := by
    norm_num [rmseNorm, listMin, listMax]
  have hmc : midiCont (fun _ => (69 : ℚ)) [440, 0] = [some 69, none] := by
    norm_num [midiCont]
  have hms0 : midiSmoothAt [some (69 : ℚ), none] 0 = some 69 := by
    norm_num [midiSmoothAt, npMedian, sortQ, insertSorted, List.filterMap]
  have hv0 : voiced (fun _ => 69) [440, 0] [1, 0] 0 = true := by
    unfold voiced
    rw [Bool.and_eq_true]
    constructor
    · rw [decide_eq_true_eq, hnorm]
      show (8 : ℚ)/100 < 1000000000/1000000001
      norm_num
    · rw [hmc, hms0]
      rfl
  have hv1 : voiced (fun _ => 69) [440, 0] [1, 0] 1 = false := by
    apply voiced_eq_false_of_energy_le
    rw [hnorm]
    show (0 : ℚ) ≤ 8/100
    norm_num
  have hp0 : pitchAt (fun _ => 69) [440, 0] 0 = 69 := by
    unfold pitchAt
    rw [hmc, hms0, Option.getD_some]
    exact pyRound_eq_low 69 69 (by norm_num) (by norm_num)
  have hmed : npMedian (List.take (1 - 0) (List.drop 0 (rmseNorm [1, 0])))
      = 1000000000/1000000001 := by
    rw [hnorm]
    norm_num [npMedian, sortQ, insertSorted]
  have hvel : pyRound (max 1 (min
      (npMedian (List.take (1 - 0) (List.drop 0 (rmseNorm [1, 0]))) * 127) 127)) = 127 := by
    rw [hmed,
      show (min ((1000000000 : ℚ)/1000000001 * 127) 127) = 127000000000/1000000001 from by
        norm_num,
      show (max (1 : ℚ) (127000000000/1000000001)) = 127000000000/1000000001 from by norm_num,
      pyRound_eq_high (127000000000/1000000001 : ℚ) 126 (by norm_num) (by norm_num)]
    norm_num
  have hnote : noteAt hop sr (rmseNorm [1, 0]) 0 1 69 = (⟨0, hop/sr, 69, "A4", 127⟩ : Note) := by
    unfold noteAt
    simp only [Note.mk.injEq]
    refine ⟨by simp, by simp, trivial, by decide, hvel⟩
  have hclose : closeNote hop sr (rmseNorm [1, 0]) 0 1 69
      = some (⟨0, hop/sr, 69, "A4", 127⟩ : Note) := by
    unfold closeNote
    rw [if_pos (by simpa using hg), hnote]
  have hstep0 : segStep hop sr (rmseNorm [1, 0]) (voiced (fun _ => 69) [440, 0] [1, 0])
      (pitchAt (fun _ => 69) [440, 0]) ([], none) 0 = ([], some (0, 69)) := by
    unfold segStep
    rw [hv0, hp0]
    rfl
  have hstep1 : segStep hop sr (rmseNorm [1, 0]) (voiced (fun _ => 69) [440, 0] [1, 0])
      (pitchAt (fun _ => 69) [440, 0]) ([], some (0, 69)) 1
      = ([⟨0, hop/sr, 69, "A4", 127⟩], none) := by
    unfold segStep
    rw [hv1]
    show (([] : List Note) ++ (closeNote hop sr (rmseNorm [1, 0]) 0 1 69).toList, none) = _
    rw [hclose]
    rfl
  unfold segLoop
  rw [show List.length [(440 : ℚ), 0] = 2 from rfl,
    show List.range 2 = [0, 1] from by decide,
    List.foldl_cons, hstep0, List.foldl_cons, hstep1, List.foldl_nil]

/-- Witness for `C1_min_duration`: a one-frame note closed mid-track
(hop 1, sample rate 1) is emitted with duration 1 s, greater than 0.04. -/
theorem C1_min_duration_witness :
    (⟨0, 1, 69, "A4", 127⟩ : Note) ∈ (segLoop (fun _ => 69) [440, 0] [1, 0] 1 1).1 ∧
    4/100 < (1 : ℚ) - 0 := by
  have hseg := segLoop_two_frame_eval 1 1 (by norm_num)
  norm_num at hseg
  have hmem : (⟨0, 1, 69, "A4", 127⟩ : Note) ∈ (segLoop (fun _ => 69) [440, 0] [1, 0] 1 1).1 := by
    rw [hseg]
    exact List.mem_singleton.mpr rfl
  exact ⟨hmem, (C1_min_duration (fun _ => 69) [440, 0] [1, 0] 1 1).1 _ hmem⟩

/-- C2: a frame is voiced iff its min-max-normalized energy is strictly
greater than 0.08 and its smoothed pitch has a value; a frame whose
normalized energy is exactly 0.08 is not voiced. -/
theorem C2_voiced_iff (hz2midi : ℚ → ℚ) (f0 rmse : List ℚ) (i : ℕ) :
    (voiced hz2midi f0 rmse i = true ↔
      8/100 < (rmseNorm rmse).getD i 0 ∧
        (midiSmoothAt (midiCont hz2midi f0) i).isSome = true) ∧
    ((rmseNorm rmse).getD i 0 = 8/100 → voiced hz2midi f0 rmse i = false) := by
  constructor
  · unfold voiced
    rw [Bool.and_eq_true, decide_eq_true_eq]
  · intro h
    unfold voiced
    rw [h, decide_eq_false (lt_irrefl _), Bool.false_and]

/-- Witness for `C2_voiced_iff`: a frame whose normalized energy is
exactly `2/25 = 0.08` and whose smoothed pitch exists is still unvoiced. -/
theorem C2_witness :
    (rmseNorm [0, 2*(1000000000+1)/(25*1000000000), 1]).getD 1 0 = 8/100 ∧
    (midiSmoothAt (midiCont (fun _ => 69) [440, 440, 440]) 1).isSome = true ∧
    voiced (fun _ => 69) [440, 440, 440] [0, 2*(1000000000+1)/(25*1000000000), 1] 1 = false := by
  have hval : (rmseNorm [0, 2*(1000000000+1)/(25*1000000000), 1]).getD 1 0 = 8/100 := by
    show ((2*(1000000000+1)/(25*1000000000) : ℚ) - listMin [0, 2*(1000000000+1)/(25*1000000000), 1])
        / ((listMax [0, 2*(1000000000+1)/(25*1000000000), 1]
            - listMin [0, 2*(1000000000+1)/(25*1000000000), 1]) + 1/1000000000) = 8/100
    norm_num [listMin, listMax]
  have hsm : (midiSmoothAt (midiCont (fun _ => 69) [440, 440, 440]) 1).isSome = true := by
    have hmc : midiCont (fun _ => (69 : ℚ)) [440, 440, 440] = [some 69, some 69, some 69] := by
      norm_num [midiCont]
    rw [hmc]
    have : midiSmoothAt [some (69 : ℚ), some 69, some 69] 1 = some 69 := by
      norm_num [midiSmoothAt, npMedian, sortQ, insertSorted, List.filterMap]
    rw [this]
    rfl
  exact ⟨hval, hsm, (C2_voiced_iff (fun _ => 69) [440, 440, 440]
    [0, 2*(1000000000+1)/(25*1000000000), 1] 1).2 hval⟩

/-- C3: for tempo > 0 and divisions = 16, the quantizer maps each note
independently; the quantized start is a multiple of the grid
`g = 60/tempo/4` within `g/2` of the original start, the quantized end is
such a multiple within `g/2` of the original end unless rounding
collapsed the note, in which case (and exactly in that case) the end is
`start + g`; hence the quantized end is strictly after the quantized
start; the concrete note `start=0.013, end=0.27` at tempo 120 quantizes
to `start=0, end=0.25` on the `0.125` s grid. -/
theorem C3_quantizer (notes : List Note) (tempo : ℚ) (ht : 0 < tempo) :
    (quantize_notes notes tempo 16 = notes.map (quantizeNote (gridOf tempo 16))) ∧
    gridOf tempo 16 = 60 / tempo / 4 ∧
    (∀ n : Note,
      (∃ k : ℤ, (quantizeNote (gridOf tempo 16) n).start = (k : ℚ) * gridOf tempo 16) ∧
      |(quantizeNote (gridOf tempo 16) n).start - n.start| ≤ gridOf tempo 16 / 2 ∧
      (((∃ m : ℤ, (quantizeNote (gridOf tempo 16) n).«end» = (m : ℚ) * gridOf tempo 16) ∧
          |(quantizeNote (gridOf tempo 16) n).«end» - n.«end»| ≤ gridOf tempo 16 / 2) ∨
        (quantizeNote (gridOf tempo 16) n).«end»
          = (quantizeNote (gridOf tempo 16) n).start + gridOf tempo 16) ∧
      ((pyRound (n.«end» / gridOf tempo 16) : ℚ) * gridOf tempo 16
          ≤ (quantizeNote (gridOf tempo 16) n).start →
        (quantizeNote (gridOf tempo 16) n).«end»
          = (quantizeNote (gridOf tempo 16) n).start + gridOf tempo 16) ∧
      (quantizeNote (gridOf tempo 16) n).start < (quantizeNote (gridOf tempo 16) n).«end» ∧
      (quantizeNote (gridOf tempo 16) n).midi = n.midi ∧
      (quantizeNote (gridOf tempo 16) n).name = n.name ∧
      (quantizeNote (gridOf tempo 16) n).velocity = n.velocity) ∧
    quantize_notes [⟨13/1000, 27/100, 60, "C4", 64⟩] 120 16 = [⟨0, 1/4, 60, "C4", 64⟩] := by
  have hg : (0 : ℚ) < gridOf tempo 16 := by
    unfold gridOf
    have h4 : (0 : ℚ) < ((16 : ℤ) : ℚ) / 4 := by norm_num
    exact div_pos (div_pos (by norm_num) ht) h4
  refine ⟨?_, ?_, ?_, ?_⟩
  · unfold quantize_notes
    rw [if_neg (by norm_num)]
  · unfold gridOf
    norm_num
  · intro n
    set g := gridOf tempo 16 with hgdef
    have hstart : (quantizeNote g n).start = (pyRound (n.start / g) : ℚ) * g := rfl
    have hend : (quantizeNote g n).«end»
        = if (pyRound (n.«end» / g) : ℚ) * g ≤ (pyRound (n.start / g) : ℚ) * g
          then (pyRound (n.start / g) : ℚ) * g + g
          else (pyRound (n.«end» / g) : ℚ) * g := rfl
    refine ⟨⟨pyRound (n.start / g), hstart⟩, ?_, ?_, ?_, ?_, rfl, rfl, rfl⟩
    · rw [hstart]
      exact abs_pyRound_mul_sub_le n.start g hg
    · by_cases hc : (pyRound (n.«end» / g) : ℚ) * g ≤ (pyRound (n.start / g) : ℚ) * g
      · right
        rw [hend, if_pos hc, hstart]
      · left
        refine ⟨⟨pyRound (n.«end» / g), ?_⟩, ?_⟩
        · rw [hend, if_neg hc]
        · rw [hend, if_neg hc]
          exact abs_pyRound_mul_sub_le n.«end» g hg
    · intro hc
      rw [hstart] at hc
      rw [hend, if_pos hc, hstart]
    · by_cases hc : (pyRound (n.«end» / g) : ℚ) * g ≤ (pyRound (n.start / g) : ℚ) * g
      · rw [hend, if_pos hc, hstart]
        linarith
      · rw [hend, if_neg hc, hstart]
        exact lt_of_not_le hc
  · have hg120 : gridOf 120 16 = 1/8 := by
      unfold gridOf
      norm_num
    have hs : pyRound ((13/1000 : ℚ) / (1/8)) = 0 :=
      pyRound_eq_low _ 0 (by norm_num) (by norm_num)
    have he : pyRound ((27/100 : ℚ) / (1/8)) = 2 :=
      pyRound_eq_low _ 2 (by norm_num) (by norm_num)
    unfold quantize_notes
    rw [if_neg (by norm_num), hg120, List.map_cons, List.map_nil]
    congr 1
    unfold quantizeNote
    simp only [Note.mk.injEq]
    refine ⟨?_, ?_, trivial, trivial, trivial⟩
    · show (pyRound ((13/1000 : ℚ) / (1/8)) : ℚ) * (1/8) = 0
      rw [hs]
      norm_num
    · show (if (pyRound ((27/100 : ℚ) / (1/8)) : ℚ) * (1/8)
          ≤ (pyRound ((13/1000 : ℚ) / (1/8)) : ℚ) * (1/8)
        then (pyRound ((13/1000 : ℚ) / (1/8)) : ℚ) * (1/8) + 1/8
        else (pyRound ((27/100 : ℚ) / (1/8)) : ℚ) * (1/8)) = 1/4
      rw [hs, he, if_neg (by norm_num)]
      norm_num

/-- Witness for `C3_quantizer` at tempo 120 and the note of Scenario 4. -/
theorem C3_quantizer_witness :
    (0 : ℚ) < 120 ∧
    quantize_notes [⟨13/1000, 27/100, 60, "C4", 64⟩] 120 16 = [⟨0, 1/4, 60, "C4", 64⟩] :=
  ⟨by norm_num, (C3_quantizer [⟨13/1000, 27/100, 60, "C4", 64⟩] 120 (by norm_num)).2.2.2⟩

/-- C4 (counterexample to the claim as stated): a 50-frame track at
constant pitch with constant energy 0.5 produces the empty note list, not
one note, because min-max normalization maps a constant energy track to 0
everywhere, below the 0.08 voicing threshold (even if the pitch converter
returned exactly MIDI 60 everywhere). -/
theorem C4_counterexample :
    transcribe (fun _ => 60) (List.replicate 50 (1308/5)) (List.replicate 50 (1/2)) 44100 120
      = [] :=
  transcribe_const_energy_empty (fun _ => 60) (List.replicate 50 (1308/5)) 50 (1/2)
    (by simp) 44100 120

/-- C4 (amended): for every pitch-to-MIDI conversion, transcribing 50
frames at constant pitch 261.6 Hz with constant energy 0.5 (hop 256,
sample rate 44100) yields the empty note list: the min-max-normalized
energy of a constant-energy track is 0 at every frame, so no frame is
voiced. -/
theorem C4_constant_energy_empty (hz2midi : ℚ → ℚ) :
    transcribe hz2midi (List.replicate 50 (1308/5)) (List.replicate 50 (1/2)) 44100 120 = [] :=
  transcribe_const_energy_empty hz2midi (List.replicate 50 (1308/5)) 50 (1/2)
    (by simp) 44100 120

/-- C10: with an empty note list the classifier uses the default median
pitch 69 and therefore an `auto` instrument request selects `alto`
(whose center 69 matches exactly). -/
theorem C10_empty_auto_alto :
    classifyInstrument [] = pyMin (fun k => |((centers k : ℚ)) - 69|) instrumentOrder ∧
    chooseInstrument "auto" [] = "alto" := by
  have hcl : classifyInstrument [] = pyMin (fun k => |((centers k : ℚ)) - 69|) instrumentOrder := by
    unfold classifyInstrument
    rw [if_neg (by norm_num)]
  refine ⟨hcl, ?_⟩
  unfold chooseInstrument
  rw [if_pos rfl, hcl]
  unfold pyMin instrumentOrder
  show (List.foldl (fun b a => if |((centers a : ℚ)) - 69| < |((centers b : ℚ)) - 69| then a else b)
    "soprano" ["alto", "tenor", "baritone"]) = "alto"
  rw [List.foldl_cons, List.foldl_cons, List.foldl_cons, List.foldl_nil]
  rw [show (if |((centers "alto" : ℚ)) - 69| < |((centers "soprano" : ℚ)) - 69|
      then "alto" else "soprano") = "alto" from by
    rw [centers_alto, centers_soprano, if_pos (by norm_num)]]
  rw [show (if |((centers "tenor" : ℚ)) - 69| < |((centers "alto" : ℚ)) - 69|
      then "tenor" else "alto") = "alto" from by
    rw [centers_tenor, centers_alto, if_neg (by norm_num)]]
  rw [show (if |((centers "baritone" : ℚ)) - 69| < |((centers "alto" : ℚ)) - 69|
      then "baritone" else "alto") = "alto" from by
    rw [centers_baritone, centers_alto, if_neg (by norm_num)]]

/-- C5: transpose-only mode maps every note to the same note with `midi`
shifted by the target instrument's offset ({soprano:+2, alto:+9,
tenor:+14, baritone:+21}, default +2 for an unrecognized identifier,
never failing on well-formed notes) and `name` recomputed from the new
midi; a note with midi 60 transposed to "tenor" gets midi 74. -/
theorem C5_transpose (ns : List RawNote) (meta : Meta) (target : String)
    (hta : target ≠ "auto") (hm : ∀ n ∈ ns, n.midi.isSome) :
    (transposeMain ⟨some ns, meta⟩ target =
      .ok ⟨{ meta with instrument := some target },
           ns.map (transposedNote (semitone_map target))⟩) ∧
    (∀ n ∈ ns, (transposedNote (semitone_map target) n).midi
        = n.midi.getD 0 + semitone_map target ∧
      (transposedNote (semitone_map target) n).name
        = midi_to_name (n.midi.getD 0 + semitone_map target)) ∧
    semitone_map "soprano" = 2 ∧ semitone_map "alto" = 9 ∧ semitone_map "tenor" = 14 ∧
    semitone_map "baritone" = 21 ∧
    (target ∉ instrumentOrder → semitone_map target = 2) ∧
    transposeMain ⟨some [⟨0, 1, some 60, "C4", 64⟩], meta⟩ "tenor" =
      .ok ⟨{ meta with instrument := some "tenor" }, [⟨0, 1, 74, "D5", 64⟩]⟩ := by
  refine ⟨?_, ?_, rfl, rfl, rfl, rfl, ?_, ?_⟩
  · unfold transposeMain
    rw [if_pos hta]
    dsimp only [Option.getD_some]
    rw [transposeLoop_ok_of_all_some (semitone_map target) ns hm]
  · intro n _
    exact ⟨rfl, rfl⟩
  · intro hnot
    have h1 : ¬(target = "soprano") := fun h => hnot (by rw [h]; decide)
    have h2 : ¬(target = "alto") := fun h => hnot (by rw [h]; decide)
    have h3 : ¬(target = "tenor") := fun h => hnot (by rw [h]; decide)
    have h4 : ¬(target = "baritone") := fun h => hnot (by rw [h]; decide)
    unfold semitone_map
    rw [if_neg h1, if_neg h2, if_neg h3, if_neg h4]
  · unfold transposeMain
    rw [if_pos (by decide : ("tenor" : String) ≠ "auto")]
    dsimp only [Option.getD_some]
    rw [transposeLoop_ok_of_all_some (semitone_map "tenor") [⟨0, 1, some 60, "C4", 64⟩]
        (fun n hn => by rw [List.mem_singleton.mp hn]; rfl)]
    rfl

/-- Witness for `C5_transpose` on a concrete one-note transcript. -/
theorem C5_transpose_witness :
    (("tenor" : String) ≠ "auto") ∧
    (∀ n ∈ ([⟨0, 1, some 60, "C4", 64⟩] : List RawNote), n.midi.isSome) ∧
    transposeMain ⟨some [⟨0, 1, some 60, "C4", 64⟩],
        ⟨some 120, some "C major", some "4/4", some "alto"⟩⟩ "tenor" =
      .ok ⟨⟨some 120, some "C major", some "4/4", some "tenor"⟩, [⟨0, 1, 74, "D5", 64⟩]⟩ := by
  have hm : ∀ n ∈ ([⟨0, 1, some 60, "C4", 64⟩] : List RawNote), n.midi.isSome := by
    intro n hn
    rw [List.mem_singleton.mp hn]
    rfl
  refine ⟨by decide, hm, ?_⟩
  have h := (C5_transpose [⟨0, 1, some 60, "C4", 64⟩]
    ⟨some 120, some "C major", some "4/4", some "alto"⟩ "tenor" (by decide) hm).1
  exact h

/-- C6 (counterexample to the claim as stated): a transpose-only input
with the `"notes"` key missing entirely is malformed, yet the operation
succeeds (it silently substitutes the empty list) instead of signalling a
Malformed-Input error. -/
theorem C6_counterexample :
    transposeMain ⟨none, ⟨some 120, some "C major", some "4/4", some "alto"⟩⟩ "tenor" =
      .ok ⟨⟨some 120, some "C major", some "4/4", some "tenor"⟩, []⟩ := rfl

/-- C6 (amended): a note record without a `"midi"` value makes the
transpose-only operation signal an error (the `KeyError` of
`int(n["midi"])`) and no midi value is fabricated; but an input whose
`"notes"` list is missing is silently treated as the empty list and the
operation succeeds with an empty note list. -/
theorem C6_missing_fields (inp : TransposeInput) (arg : String) :
    (∀ ns, inp.notes = some ns → (∃ n ∈ ns, n.midi = none) →
      ∃ e, transposeMain inp arg = .error e) ∧
    (inp.notes = none → ∃ out, transposeMain inp arg = .ok out ∧ out.notes = []) := by
  constructor
  · intro ns hns hex
    obtain ⟨e, he⟩ := transposeLoop_error_of_missing
      (semitone_map (if arg ≠ "auto" then arg else inp.meta.instrument.getD "soprano")) ns hex
    refine ⟨e, ?_⟩
    unfold transposeMain
    dsimp only
    rw [hns, Option.getD_some, he]
  · intro hns
    refine ⟨⟨{ inp.meta with
        instrument := some (if arg ≠ "auto" then arg else inp.meta.instrument.getD "soprano") },
      []⟩, ?_, rfl⟩
    unfold transposeMain
    dsimp only
    rw [hns]
    rfl

/-- Witness for `C6_missing_fields` at concrete malformed inputs. -/
theorem C6_missing_fields_witness :
    (∃ e, transposeMain ⟨some [⟨0, 1, none, "C4", 64⟩], ⟨none, none, none, none⟩⟩ "alto"
        = .error e) ∧
    (∃ out, transposeMain ⟨none, ⟨none, none, none, none⟩⟩ "alto" = .ok out ∧ out.notes = []) := by
  constructor
  · exact (C6_missing_fields ⟨some [⟨0, 1, none, "C4", 64⟩], ⟨none, none, none, none⟩⟩ "alto").1
      [⟨0, 1, none, "C4", 64⟩] rfl ⟨⟨0, 1, none, "C4", 64⟩, List.mem_singleton.mpr rfl, rfl⟩
  · exact (C6_missing_fields ⟨none, ⟨none, none, none, none⟩⟩ "alto").2 rfl

/-- C9: transpose-only mode preserves, note for note (count and order
included), the `start`, `end` and `velocity` fields, and changes only the
`instrument` field of the metadata — `tempo`, `key` and `meter` are
untouched. -/
theorem C9_transpose_frame (inp : TransposeInput) (arg : String) (out : Transcript)
    (hok : transposeMain inp arg = .ok out) :
    out.meta.tempo = inp.meta.tempo ∧ out.meta.key = inp.meta.key ∧
    out.meta.meter = inp.meta.meter ∧
    out.meta.instrument
      = some (if arg ≠ "auto" then arg else inp.meta.instrument.getD "soprano") ∧
    out.notes.length = (inp.notes.getD []).length ∧
    (∀ i, i < out.notes.length →
      (out.notes.getD i default).start = ((inp.notes.getD []).getD i default).start ∧
      (out.notes.getD i default).«end» = ((inp.notes.getD []).getD i default).«end» ∧
      (out.notes.getD i default).velocity = ((inp.notes.getD []).getD i default).velocity) := by
  unfold transposeMain at hok
  dsimp only at hok
  cases htl : transposeLoop
      (semitone_map (if arg ≠ "auto" then arg else inp.meta.instrument.getD "soprano"))
      (inp.notes.getD []) with
  | error e =>
    rw [htl] at hok
    cases hok
  | ok ts =>
    rw [htl] at hok
    have hok2 : (Except.ok (⟨{ inp.meta with
        instrument := some (if arg ≠ "auto" then arg else inp.meta.instrument.getD "soprano") },
      ts⟩ : Transcript) : Except String Transcript) = .ok out := hok
    injection hok2 with h
    subst h
    have hts := transposeLoop_ok_eq _ _ _ htl
    refine ⟨rfl, rfl, rfl, rfl, ?_, ?_⟩
    · show ts.length = (inp.notes.getD []).length
      rw [hts, List.length_map]
    · intro i hi
      have hi2 : i < (inp.notes.getD []).length := by
        have : ts.length = (inp.notes.getD []).length := by rw [hts, List.length_map]
        rw [← this]
        exact hi
      show (ts.getD i default).start = _ ∧ (ts.getD i default).«end» = _ ∧
        (ts.getD i default).velocity = _
      rw [hts, getD_map_lt (transposedNote _) _ i default default hi2]
      exact ⟨rfl, rfl, rfl⟩

/-- Witness for `C9_transpose_frame` on a concrete one-note transcript. -/
theorem C9_transpose_frame_witness :
    (transposeMain
        ⟨some [⟨0, 1, some 60, "C4", 64⟩], ⟨some 120, some "C major", some "4/4", some "alto"⟩⟩
        "tenor"
      = .ok ⟨⟨some 120, some "C major", some "4/4", some "tenor"⟩, [⟨0, 1, 74, "D5", 64⟩]⟩) ∧
    ((⟨⟨some 120, some "C major", some "4/4", some "tenor"⟩,
        [⟨0, 1, 74, "D5", 64⟩]⟩ : Transcript).meta.tempo = some 120 ∧
      (⟨⟨some 120, some "C major", some "4/4", some "tenor"⟩,
        [⟨0, 1, 74, "D5", 64⟩]⟩ : Transcript).notes.length = 1 ∧
      ((⟨⟨some 120, some "C major", some "4/4", some "tenor"⟩,
        [⟨0, 1, 74, "D5", 64⟩]⟩ : Transcript).notes.getD 0 default).velocity = 64) := by
  have h := C9_transpose_frame
    ⟨some [⟨0, 1, some 60, "C4", 64⟩], ⟨some 120, some "C major", some "4/4", some "alto"⟩⟩
    "tenor"
    ⟨⟨some 120, some "C major", some "4/4", some "tenor"⟩, [⟨0, 1, 74, "D5", 64⟩]⟩
    rfl
  exact ⟨rfl, h.1, rfl, rfl⟩

theorem prio_soprano : prio "soprano" = 0 := by decide

theorem prio_alto : prio "alto" = 1 := by decide

theorem prio_tenor : prio "tenor" = 2 := by decide

theorem prio_baritone : prio "baritone" = 3 := by decide

/-- C7: for a non-empty note list the auto-classifier picks an instrument
of the table whose center is closest to the median midi, and among
equally close instruments the earliest in the priority order soprano,
alto, tenor, baritone. -/
theorem C7_classify (notes : List Note) (h : notes ≠ []) :
    classifyInstrument notes ∈ instrumentOrder ∧
    (∀ k ∈ instrumentOrder,
      |((centers (classifyInstrument notes) : ℚ))
          - npMedian (notes.map fun n => (n.midi : ℚ))|
        ≤ |((centers k : ℚ)) - npMedian (notes.map fun n => (n.midi : ℚ))|) ∧
    (∀ k ∈ instrumentOrder,
      |((centers k : ℚ)) - npMedian (notes.map fun n => (n.midi : ℚ))|
          = |((centers (classifyInstrument notes) : ℚ))
              - npMedian (notes.map fun n => (n.midi : ℚ))| →
      prio (classifyInstrument notes) ≤ prio k) := by
  have hlen : notes.length ≠ 0 := by
    intro h0
    exact h (List.length_eq_zero.mp h0)
  set med := npMedian (notes.map fun n => (n.midi : ℚ)) with hmed
  have hcl : classifyInstrument notes
      = List.foldl
          (fun b a => if |((centers a : ℚ)) - med| < |((centers b : ℚ)) - med| then a else b)
          "soprano" ["alto", "tenor", "baritone"] := by
    unfold classifyInstrument
    rw [if_pos hlen]
    rfl
  rw [hcl, List.foldl_cons, List.foldl_cons, List.foldl_cons, List.foldl_nil]
  split_ifs with h1 h2 h3 h4 h5 h6 h7 <;>
    refine ⟨by decide, ?_, ?_⟩ <;>
    intro k hk <;>
    try intro heq
  all_goals simp only [instrumentOrder, List.mem_cons, List.not_mem_nil, or_false] at hk
  all_goals rcases hk with rfl | rfl | rfl | rfl
  all_goals simp only [centers_soprano, centers_alto, centers_tenor, centers_baritone,
    prio_soprano, prio_alto, prio_tenor, prio_baritone] at *
  all_goals first
    | decide
    | linarith

/-- Witness for `C7_classify`: a single note of midi 60 is classified
(tenor's center 62 is closest to the median 60). -/
theorem C7_classify_witness :
    (([⟨0, 1, 60, "C4", 64⟩] : List Note) ≠ []) ∧
    (classifyInstrument [⟨0, 1, 60, "C4", 64⟩] ∈ instrumentOrder ∧
    (∀ k ∈ instrumentOrder,
      |((centers (classifyInstrument [⟨0, 1, 60, "C4", 64⟩]) : ℚ))
          - npMedian (([⟨0, 1, 60, "C4", 64⟩] : List Note).map fun n => (n.midi : ℚ))|
        ≤ |((centers k : ℚ))
          - npMedian (([⟨0, 1, 60, "C4", 64⟩] : List Note).map fun n => (n.midi : ℚ))|) ∧
    (∀ k ∈ instrumentOrder,
      |((centers k : ℚ))
          - npMedian (([⟨0, 1, 60, "C4", 64⟩] : List Note).map fun n => (n.midi : ℚ))|
          = |((centers (classifyInstrument [⟨0, 1, 60, "C4", 64⟩]) : ℚ))
              - npMedian (([⟨0, 1, 60, "C4", 64⟩] : List Note).map fun n => (n.midi : ℚ))| →
      prio (classifyInstrument [⟨0, 1, 60, "C4", 64⟩]) ≤ prio k)) := by
  have h : ([⟨0, 1, 60, "C4", 64⟩] : List Note) ≠ [] := by
    intro h0
    cases h0
  exact ⟨h, C7_classify [⟨0, 1, 60, "C4", 64⟩] h⟩

/-- Every output note of the quantizer comes from an input note via
`quantizeNote`. -/
theorem mem_quantize_notes {notes : List Note} {tempo : ℚ} {nt : Note}
    (h : nt ∈ quantize_notes notes tempo 16) :
    ∃ nt0 ∈ notes, nt = quantizeNote (gridOf tempo 16) nt0 := by
  unfold quantize_notes at h
  rw [if_neg (by norm_num)] at h
  obtain ⟨nt0, h0, heq⟩ := List.mem_map.mp h
  exact ⟨nt0, h0, heq.symm⟩

/-- Every note of `segmentNotes` spans the frames `[cs, ce)` given by its
own pre-quantization start and end times, and its velocity is the
clipped, rounded median of the normalized energies of exactly those
frames.  The length hypothesis is the numpy precondition that the pitch
and energy arrays are index-aligned. -/
theorem segmentNotes_velocity_shape (hz2midi : ℚ → ℚ) (f0 rmse : List ℚ) (hop sr : ℚ)
    (hlen : rmse.length = f0.length) :
    ∀ nt ∈ segmentNotes hz2midi f0 rmse hop sr, ∃ cs ce : ℕ,
      nt.start = (cs : ℚ) * hop / sr ∧
      nt.«end» = (ce : ℚ) * hop / sr ∧
      nt.velocity = pyRound (max 1 (min
        (npMedian (((rmseNorm rmse).drop cs).take (ce - cs)) * 127) 127)) := by
  intro nt hnt
  rcases segmentNotes_cases hz2midi f0 rmse hop sr nt hnt with hmem | ⟨cs, cp, heq⟩
  · refine segLoop_inv'
      (fun x => ∃ cs ce : ℕ, x.start = (cs : ℚ) * hop / sr ∧ x.«end» = (ce : ℚ) * hop / sr ∧
        x.velocity = pyRound (max 1 (min
          (npMedian (((rmseNorm rmse).drop cs).take (ce - cs)) * 127) 127)))
      hz2midi f0 rmse hop sr ?_ nt hmem
    intro cs i cp x hx
    obtain ⟨_, hxeq⟩ := closeNote_eq_some hx
    refine ⟨cs, i, ?_, ?_, ?_⟩
    · rw [hxeq]
      rfl
    · rw [hxeq]
      rfl
    · rw [hxeq]
      rfl
  · refine ⟨cs, f0.length, ?_, ?_, ?_⟩
    · rw [heq]
      rfl
    · rw [heq]
      rfl
    · rw [heq]
      have hr : (rmseNorm rmse).length = rmse.length := by
        unfold rmseNorm
        rw [List.length_map]
      have hle : ((rmseNorm rmse).drop cs).length ≤ f0.length - cs := by
        rw [List.length_drop, hr, hlen]
      rw [take_all_of_length_le _ _ hle]
      rfl

/-- C8: every note emitted by `transcribe` is the quantization of a
pre-quantization note whose start and end delimit its own frame span
`[cs, ce)`, and the velocity (unchanged by quantization) is the median
of the normalized energies of exactly those frames, scaled by 127,
clamped to [1, 127] and rounded — hence always in [1, 127]; a note whose
own frames have median energy 0 receives velocity 1. -/
theorem C8_velocity (hz2midi : ℚ → ℚ) (f0 rmse : List ℚ) (sr tempo : ℚ)
    (hlen : rmse.length = f0.length) (h01 : ∀ x ∈ rmse, 0 ≤ x ∧ x ≤ 1) :
    ∀ nt ∈ transcribe hz2midi f0 rmse sr tempo,
      (1 ≤ nt.velocity ∧ nt.velocity ≤ 127) ∧
      ∃ (nt0 : Note) (cs ce : ℕ),
        nt0 ∈ segmentNotes hz2midi f0 rmse 256 sr ∧
        nt = quantizeNote (gridOf tempo 16) nt0 ∧
        nt0.start = (cs : ℚ) * 256 / sr ∧
        nt0.«end» = (ce : ℚ) * 256 / sr ∧
        nt.velocity = nt0.velocity ∧
        nt0.velocity = pyRound (max 1 (min
          (npMedian (((rmseNorm rmse).drop cs).take (ce - cs)) * 127) 127)) ∧
        (npMedian (((rmseNorm rmse).drop cs).take (ce - cs)) = 0 → nt.velocity = 1) := by
  intro nt hnt
  unfold transcribe at hnt
  obtain ⟨nt0, h0, heq⟩ := mem_quantize_notes hnt
  obtain ⟨cs, ce, hs, he, hv⟩ := segmentNotes_velocity_shape hz2midi f0 rmse 256 sr hlen nt0 h0
  have hvel : nt.velocity = nt0.velocity := by
    rw [heq]
    rfl
  refine ⟨⟨?_, ?_⟩, nt0, cs, ce, h0, heq, hs, he, hvel, hv, ?_⟩
  · rw [hvel, hv]
    exact (le_pyRound_clip _).1
  · rw [hvel, hv]
    exact (le_pyRound_clip _).2
  · intro hz
    rw [hvel, hv, hz,
      show (min ((0 : ℚ) * 127) 127) = 0 from by norm_num,
      show (max (1 : ℚ) 0) = 1 from by norm_num]
    exact pyRound_eq_low 1 1 (by norm_num) (by norm_num)

/-- Evaluation helper: the whole `transcribe` pipeline on the two-frame
track `f0 = [440, 0]`, `rmse = [1, 0]` at sample rate 256 (hop 256) and
tempo 120 produces a single quantized note. -/
theorem transcribe_two_frame_eval :
    transcribe (fun _ => 69) [440, 0] [1, 0] 256 120 = [⟨0, 1, 69, "A4", 127⟩] := by
  have hseg := segLoop_two_frame_eval 256 256 (by norm_num)
  have hsegm : segmentNotes (fun _ => 69) [440, 0] [1, 0] 256 256 = [⟨0, 1, 69, "A4", 127⟩] := by
    unfold segmentNotes
    rw [hseg]
    show [(⟨0, (256 : ℚ)/256, 69, "A4", 127⟩ : Note)] = _
    norm_num
  have hg120 : gridOf 120 16 = 1/8 := by
    unfold gridOf
    norm_num
  have hs : pyRound ((0 : ℚ) / (1/8)) = 0 := pyRound_eq_low _ 0 (by norm_num) (by norm_num)
  have he : pyRound ((1 : ℚ) / (1/8)) = 8 := pyRound_eq_low _ 8 (by norm_num) (by norm_num)
  unfold transcribe
  rw [hsegm]
  unfold quantize_notes
  rw [if_neg (by norm_num), hg120, List.map_cons, List.map_nil]
  congr 1
  unfold quantizeNote
  simp only [Note.mk.injEq]
  refine ⟨?_, ?_, trivial, trivial, trivial⟩
  · show (pyRound ((0 : ℚ) / (1/8)) : ℚ) * (1/8) = 0
    rw [hs]
    norm_num
  · show (if (pyRound ((1 : ℚ) / (1/8)) : ℚ) * (1/8) ≤ (pyRound ((0 : ℚ) / (1/8)) : ℚ) * (1/8)
        then (pyRound ((0 : ℚ) / (1/8)) : ℚ) * (1/8) + 1/8
        else (pyRound ((1 : ℚ) / (1/8)) : ℚ) * (1/8)) = 1
    rw [hs, he, if_neg (by norm_num)]
    norm_num

/-- Witness for `C8_velocity` on the two-frame track. -/
theorem C8_velocity_witness :
    ([1, 0] : List ℚ).length = ([440, 0] : List ℚ).length ∧
    (∀ x ∈ ([1, 0] : List ℚ), 0 ≤ x ∧ x ≤ 1) ∧
    ((1 ≤ (⟨0, 1, 69, "A4", 127⟩ : Note).velocity ∧
        (⟨0, 1, 69, "A4", 127⟩ : Note).velocity ≤ 127) ∧
      ∃ (nt0 : Note) (cs ce : ℕ),
        nt0 ∈ segmentNotes (fun _ => 69) [440, 0] [1, 0] 256 256 ∧
        (⟨0, 1, 69, "A4", 127⟩ : Note) = quantizeNote (gridOf 120 16) nt0 ∧
        nt0.start = (cs : ℚ) * 256 / 256 ∧
        nt0.«end» = (ce : ℚ) * 256 / 256 ∧
        (⟨0, 1, 69, "A4", 127⟩ : Note).velocity = nt0.velocity ∧
        nt0.velocity = pyRound (max 1 (min
          (npMedian (((rmseNorm [1, 0]).drop cs).take (ce - cs)) * 127) 127)) ∧
        (npMedian (((rmseNorm [1, 0]).drop cs).take (ce - cs)) = 0 →
          (⟨0, 1, 69, "A4", 127⟩ : Note).velocity = 1)) := by
  have h01 : ∀ x ∈ ([1, 0] : List ℚ), 0 ≤ x ∧ x ≤ 1 := by
    intro x hx
    rcases List.mem_cons.mp hx with rfl | hx2
    · norm_num
    · rcases List.mem_singleton.mp hx2 with rfl
      norm_num
  have hmem : (⟨0, 1, 69, "A4", 127⟩ : Note) ∈ transcribe (fun _ => 69) [440, 0] [1, 0] 256 120 := by
    rw [transcribe_two_frame_eval]
    exact List.mem_singleton.mpr rfl
  exact ⟨rfl, h01, C8_velocity (fun _ => 69) [440, 0] [1, 0] 256 120 rfl h01 _ hmem⟩

end TranscriptionTool
